import Mathlib

/-!
Verification of the query-resolution and filtering engine of the
amazonface-rag repository (`src/app/api/ask/route.ts`).

The TypeScript route handler is shallowly embedded as executable Lean
definitions:

* Strings are Lean `String`s; the JavaScript operations `toLowerCase`,
  `trim` and `includes` are modelled by `lowerStr`, `trimStr` and
  `jsIncludes` (ASCII case mapping, which covers the whole vocabulary and
  all comparisons performed by the route).
* `string | null` fields are `Option String`; JavaScript truthiness of a
  string value (`null`, `undefined` and `""` are falsy) is `optTruthy`.
* The synonym dictionaries are association lists in the literal order of
  the source object literals (`Object.entries` preserves insertion order).
* The similarity score and embedding payloads are type parameters of the
  pipeline: the route treats them opaquely except inside
  `cosineSimilarity`, which is modelled separately over `ℝ` with an
  explicit NaN-aware result type (`JNum`) mirroring JS number semantics.
* `Array.prototype.sort` (stable in ES2019+) is modelled by a stable
  insertion sort; no claim depends on the resulting order beyond it being
  a permutation.
* The per-result GBIF image lookup is an external collaborator; the
  pipeline records, in order, the species names it is invoked on.
-/

/-! ### JavaScript string primitives -/

/-- ASCII lower-casing of one character, as performed by
`String.prototype.toLowerCase` on the ASCII inputs used by the route. -/
def lowerChar (c : Char) : Char :=
  if 65 ≤ c.toNat ∧ c.toNat ≤ 90 then Char.ofNat (c.toNat + 32) else c

/-- `s.toLowerCase()`. -/
def lowerStr (s : String) : String := String.mk (s.data.map lowerChar)

/-- Whitespace characters removed by `String.prototype.trim`. -/
def isWSpace (c : Char) : Bool :=
  c.toNat == 32 || c.toNat == 9 || c.toNat == 10 || c.toNat == 13

def trimChars (l : List Char) : List Char :=
  ((l.dropWhile isWSpace).reverse.dropWhile isWSpace).reverse

/-- `s.trim()`. -/
def trimStr (s : String) : String := String.mk (trimChars s.data)

/-- Is `p` a contiguous substring of the second list? -/
def listIsInfix (p : List Char) : List Char → Bool
  | [] => p.isEmpty
  | c :: t => List.isPrefixOf p (c :: t) || listIsInfix p t

/-- `s.includes(pat)`. -/
def jsIncludes (s pat : String) : Bool := listIsInfix pat.data s.data

/-- JavaScript truthiness of a `string | null | undefined` value:
`null`, `undefined` and the empty string are falsy. -/
def optTruthy : Option String → Bool
  | none => false
  | some s => !s.isEmpty

/-! ### Canonical vocabularies (route.ts lines 51-101) -/

def speciesSynonyms : List String :=
  ["tree", "trees", "plant", "plants", "vegetation", "species"]

def ecosystemServiceSynonyms : List (String × List String) :=
  [("Medicinal",
    ["medicine", "medicinal", "healing", "remedy", "pharmaceutical", "health"]),
   ("Food",
    ["food", "edible", "nutrition", "eat", "eating", "consumed", "nutritional"]),
   ("Raw Material",
    ["raw material", "material", "timber", "wood", "construction", "building",
     "fiber", "latex", "resource"])]

def partUsedSynonyms : List (String × List String) :=
  [("fruit", ["fruit", "fruits", "edible fruit"]),
   ("seed", ["seed", "seeds", "edible seed"]),
   ("bark", ["bark"]),
   ("trunk", ["trunk", "wood", "timber"]),
   ("leaves", ["leaf", "leaves", "edible leaves"]),
   ("root", ["root", "roots"]),
   ("latex", ["latex"]),
   ("resin", ["resin"]),
   ("branch", ["branch", "branches"]),
   ("flower", ["flower", "flowers"]),
   ("sap", ["sap"])]

/-! ### Synonym normalizer (route.ts lines 145-157, `normalizeField`) -/

/-- The dictionary lookup inside `normalizeField`: the first pair whose
canonical label or one of whose synonyms equals the trimmed lower-cased
input. -/
def normTableHit (v : String) (synonymsDict : List (String × List String)) :
    Option (String × List String) :=
  synonymsDict.find? (fun p =>
    lowerStr p.1 == lowerStr (trimStr v) ||
    p.2.any (fun syn => lowerStr syn == lowerStr (trimStr v)))

/-- `normalizeField(value, synonymsDict)`:
`if (!value) return null` (so both `null` and `""` yield `null`), then the
first dictionary pair whose canonical label or one of whose synonyms
equals the trimmed lower-cased input wins; otherwise the original value is
returned unchanged. -/
def normalizeField (value : Option String)
    (synonymsDict : List (String × List String)) : Option String :=
  match value with
  | none => none
  | some v =>
    if v.isEmpty then none
    else
      match normTableHit v synonymsDict with
      | some p => some p.1
      | none => some v

/-- Spec-side matching condition of one vocabulary pair against an input
(the trimmed lower-cased input equals the canonical label
case-insensitively, or equals one of the pair's synonyms). -/
def tableMatches (s : String) (p : String × List String) : Prop :=
  lowerStr p.1 = lowerStr (trimStr s) ∨
  ∃ syn ∈ p.2, lowerStr syn = lowerStr (trimStr s)

instance (s : String) (p : String × List String) :
    Decidable (tableMatches s p) := by
  unfold tableMatches; infer_instance

/-- A vocabulary table on which the normalizer is idempotent: every
canonical label is nonempty and normalizes back to itself (the first pair
matching the label's trimmed lower-cased form carries that same label). -/
def goodTable (T : List (String × List String)) : Bool :=
  T.all (fun pr =>
    !pr.1.isEmpty && ((normTableHit pr.1 T).map Prod.fst == some pr.1))

/-! ### Query shape (route.ts lines 24-28, 104-111) -/

structure Query where
  species : Option String
  ecosystemService : Option String
  partUsed : Option String
deriving DecidableEq

/-- The unvalidated `and` object forwarded from the extractor
(`{ ecosystemService?: string; partUsed?: string }`). -/
structure AndClause where
  ecosystemService : Option String
  partUsed : Option String
deriving DecidableEq

/-! ### Heuristic (fallback) query parser (route.ts lines 169-215) -/

/-- Lower-case ASCII letter, the character class `[a-z]` of the
exclusivity regexes. -/
def isLowerAlpha (c : Char) : Bool := 97 ≤ c.toNat && c.toNat ≤ 122

/-- One exclusivity pattern `<pre>([a-z]+)<post>` attempted at the head of
`s`: the literal `pre`, then a nonempty maximal `[a-z]+` run (the
capture), then the literal `post`.  For the four patterns of the route
`post` is empty or starts with a space, so regex backtracking can never
shorten the greedy capture: the maximal run is the only candidate. -/
def matchCaptureAt (pre post s : List Char) : Option (List Char) :=
  if List.isPrefixOf pre s then
    let rest := s.drop pre.length
    let run := rest.takeWhile isLowerAlpha
    if run.isEmpty then none
    else if List.isPrefixOf post (rest.drop run.length) then some run
    else none
  else none

/-- Leftmost match of `<pre>([a-z]+)<post>` in `s`, returning the capture
(the semantics of `String.prototype.match` with these patterns). -/
def scanCapture (pre post : List Char) : List Char → Option (List Char)
  | [] => matchCaptureAt pre post []
  | c :: t =>
    match matchCaptureAt pre post (c :: t) with
    | some cap => some cap
    | none => scanCapture pre post t

/-- The capture of one exclusivity pattern against a string. -/
def patCapture (pat : String × String) (s : String) : Option String :=
  (scanCapture pat.1.data pat.2.data s.data).map String.mk

/-- The four `onlyPartsUsedPatterns` of route.ts lines 195-200, each split
as literal-text-before-capture and literal-text-after-capture. -/
def onlyPatterns : List (String × String) :=
  [("only the ", " are used"),
   ("", " are the only part used"),
   ("parts used is only ", ""),
   ("the only value in partsused is ", "")]

/-- First pattern (in list order) that matches, with its capture
(route.ts lines 201-214: the loop breaks on the first match). -/
def firstPatternCapture (lowerQ : String) : Option String :=
  onlyPatterns.foldr
    (fun pat acc => match patCapture pat lowerQ with
      | some cap => some cap
      | none => acc)
    none

/-- Normalization of the captured part token (route.ts lines 206-211):
first pair whose canonical label lower-cases to the token or whose synonym
list contains the token verbatim; fallback to the raw token. -/
def normalizeOnlyPart (tok : String) : String :=
  match partUsedSynonyms.find? (fun p =>
      lowerStr p.1 == tok || p.2.contains tok) with
  | some p => p.1
  | none => tok

structure ParsedQuestion where
  query : Query
  onlyFlag : Bool
deriving DecidableEq

/-- The service-synonym scan (route.ts lines 172-180): first canonical
label one of whose synonyms occurs in the lower-cased question. -/
def serviceScan (lowerQ : String) : Option String :=
  (ecosystemServiceSynonyms.find? (fun p =>
    p.2.any (fun syn => jsIncludes lowerQ syn))).map Prod.fst

/-- The part-synonym scan (route.ts lines 182-189), run only when no
service matched. -/
def partScan (lowerQ : String) : Option String :=
  (partUsedSynonyms.find? (fun p =>
    p.2.any (fun syn => jsIncludes lowerQ syn))).map Prod.fst

/-- The heuristic fallback parser (route.ts lines 169-215): service
synonym scan with first-hit break; part synonym scan only when no service
matched; species stays `null`; then the exclusivity patterns, whose first
match sets `only = true` and overwrites `partUsed` with the normalized
capture. -/
def heuristicParse (question : String) : ParsedQuestion :=
  let lowerQ := lowerStr question
  let service := serviceScan lowerQ
  let part := if service.isSome then none else partScan lowerQ
  match firstPatternCapture lowerQ with
  | some tok =>
    { query := { species := none, ecosystemService := service,
                 partUsed := some (normalizeOnlyPart tok) },
      onlyFlag := true }
  | none =>
    { query := { species := none, ecosystemService := service,
                 partUsed := part },
      onlyFlag := false }

/-! ### Count detector (route.ts line 218) -/

/-- `/how many|number of|count/i.test(question)`. -/
def isCountQuery (question : String) : Bool :=
  jsIncludes (lowerStr question) "how many" ||
  jsIncludes (lowerStr question) "number of" ||
  jsIncludes (lowerStr question) "count"

/-! ### Catalog records and responses (route.ts lines 10-21, 396-400) -/

/-- One catalog entry, generic over the embedding payload `E` and the
similarity score type `S`.  The loaded `data_with_embeddings.json` entries
(produced by `scripts/add-embeddings.ts`) carry no `similarity` key, so
the field is an `Option` that the scoring map fills in. -/
structure SpeciesRec (E S : Type) where
  Species : String
  Family : String
  EcosystemService : List String
  PartsUsed : List String
  RelatedFunctionalTraits : List String
  embedding : E
  similarity : Option S
deriving DecidableEq

/-- The JSON body of a successful response: either the enriched result
list (each entry paired with its fetched image URLs) or a bare count. -/
inductive ApiResponse (E S : Type) where
  | results : List (SpeciesRec E S × List String) → ApiResponse E S
  | count : Nat → ApiResponse E S
deriving DecidableEq

/-- Observable outcome of one request: the response body plus the species
names the image-enrichment collaborator was invoked on, in order. -/
structure PipelineOut (E S : Type) where
  response : ApiResponse E S
  imageCalls : List String
deriving DecidableEq

/-! ### Scoring and ranking (route.ts lines 270-275) -/

/-- `dataWithEmbeddings.map(entry => ({...entry, similarity: sim(...)}))`. -/
def scoredList (sim : E → E → S) (qEmb : E) (catalog : List (SpeciesRec E S)) :
    List (SpeciesRec E S) :=
  catalog.map (fun e => { e with similarity := some (sim qEmb e.embedding) })

/-- Stable insertion of one element: `x` goes in front of the first `y`
with `le x y`. -/
def insertByLe (le : α → α → Bool) (x : α) : List α → List α
  | [] => [x]
  | y :: t => if le x y then x :: y :: t else y :: insertByLe le x t

/-- Stable sort keeping `a` before `b` whenever `le a b` (the model of the
ES2019+ stable `Array.prototype.sort`). -/
def stableSortBy (le : α → α → Bool) : List α → List α
  | [] => []
  | x :: t => insertByLe le x (stableSortBy le t)

/-- `scored.sort((a, b) => b.similarity - a.similarity)`: descending by
similarity, ties (and incomparable scores) keeping input order.  `sLe` is
the score order; entries missing a score never arise here because the sort
input is `scoredList`. -/
def rankedList (sLe : S → S → Bool) (scored : List (SpeciesRec E S)) :
    List (SpeciesRec E S) :=
  stableSortBy
    (fun a b => match a.similarity, b.similarity with
      | some x, some y => sLe y x
      | _, _ => true)
    scored

/-! ### Filter combinator (route.ts lines 276-351) -/

/-- Exclusivity test on the service field (route.ts lines 282-288):
array of length exactly 1 whose sole element equals the query value
case-insensitively. -/
def exclES (v : String) (item : SpeciesRec E S) : Bool :=
  item.EcosystemService.length == 1 &&
  lowerStr (item.EcosystemService.headD "") == lowerStr v

/-- Exclusivity test on the part field (route.ts lines 289-294). -/
def exclPU (v : String) (item : SpeciesRec E S) : Bool :=
  item.PartsUsed.length == 1 &&
  lowerStr (item.PartsUsed.headD "") == lowerStr v

/-- The `only`-branch predicate (route.ts lines 280-296): starts from
`match = true` and conjoins the exclusivity test for each truthy query
field. -/
def onlyFilterPred (q : Query) (item : SpeciesRec E S) : Bool :=
  let m := true
  let m := if optTruthy q.ecosystemService
    then m && exclES (q.ecosystemService.getD "") item else m
  let m := if optTruthy q.partUsed
    then m && exclPU (q.partUsed.getD "") item else m
  m

/-- Case-insensitive substring membership in a string list (the shape of
the default-branch service/part tests and of the `and` tests). -/
def anyContains (l : List String) (v : String) : Bool :=
  l.any (fun s => jsIncludes (lowerStr s) (lowerStr v))

/-- The default-branch predicate (route.ts lines 299-314). -/
def defaultFilterPred (q : Query) (item : SpeciesRec E S) : Bool :=
  let speciesMatch := !optTruthy q.species ||
    jsIncludes (lowerStr item.Species) (lowerStr (q.species.getD ""))
  let ecosystemMatch := !optTruthy q.ecosystemService ||
    anyContains item.EcosystemService (q.ecosystemService.getD "")
  let partMatch := !optTruthy q.partUsed ||
    anyContains item.PartsUsed (q.partUsed.getD "")
  speciesMatch && ecosystemMatch && partMatch

/-- Primary branch selection (route.ts lines 279-315): the exclusivity
branch filters the original, unranked catalog; the default branch filters
the ranked list. -/
def branchFiltered (q : Query) (onlyFlag : Bool)
    (catalog ranked : List (SpeciesRec E S)) : List (SpeciesRec E S) :=
  if onlyFlag then catalog.filter (onlyFilterPred q)
  else ranked.filter (defaultFilterPred q)

/-- Second application of the exclusivity tests (route.ts lines 318-334),
one field at a time. -/
def reapplyOnly (q : Query) (onlyFlag : Bool) (l : List (SpeciesRec E S)) :
    List (SpeciesRec E S) :=
  if onlyFlag then
    let l1 := if optTruthy q.ecosystemService
      then l.filter (exclES (q.ecosystemService.getD "")) else l
    if optTruthy q.partUsed
      then l1.filter (exclPU (q.partUsed.getD "")) else l1
  else l

/-- `and` narrowing (route.ts lines 336-351): for each truthy field of the
clause, a further substring-membership filter. -/
def applyAnd (andClause : Option AndClause) (l : List (SpeciesRec E S)) :
    List (SpeciesRec E S) :=
  match andClause with
  | none => l
  | some a =>
    let l1 := if optTruthy a.ecosystemService
      then l.filter (fun item =>
        anyContains item.EcosystemService (a.ecosystemService.getD "")) else l
    if optTruthy a.partUsed
      then l1.filter (fun item =>
        anyContains item.PartsUsed (a.partUsed.getD "")) else l1

/-- The final filtered set of one request (the value of `filtered` at
route.ts line 353). -/
def finalFiltered (sim : E → E → S) (sLe : S → S → Bool) (q : Query)
    (onlyFlag : Bool) (andClause : Option AndClause)
    (catalog : List (SpeciesRec E S)) (qEmb : E) : List (SpeciesRec E S) :=
  applyAnd andClause
    (reapplyOnly q onlyFlag
      (branchFiltered q onlyFlag catalog
        (rankedList sLe (scoredList sim qEmb catalog))))

/-- The whole post-extraction pipeline (route.ts lines 218-400): count
detection, scoring, ranking, filtering, per-result image enrichment (which
the code performs before the count check), and response selection.
`imagesFor` is the external GBIF collaborator; `imageCalls` records the
species names it is invoked on, in order. -/
def runPipeline (sim : E → E → S) (sLe : S → S → Bool) (question : String)
    (q : Query) (onlyFlag : Bool) (andClause : Option AndClause)
    (catalog : List (SpeciesRec E S)) (qEmb : E)
    (imagesFor : String → List String) : PipelineOut E S :=
  let filtered := finalFiltered sim sLe q onlyFlag andClause catalog qEmb
  let resultsWithImages := filtered.map (fun item =>
    (item, imagesFor item.Species))
  { response :=
      if isCountQuery question then ApiResponse.count filtered.length
      else ApiResponse.results resultsWithImages,
    imageCalls := filtered.map (fun item => item.Species) }

/-! ### Spec-side predicates (written from the spec's words, for the
refinement claims about the filter combinator) -/

/-- Spec wording of the exclusivity branch (spec 4.6): for every non-null
field among `ecosystemService`/`partUsed`, the corresponding array has
length exactly 1 and its sole element equals the query value
case-insensitively. -/
def specExclMatches (q : Query) (item : SpeciesRec E S) : Bool :=
  (match q.ecosystemService with
   | none => true
   | some v => item.EcosystemService.length == 1 &&
       lowerStr (item.EcosystemService.headD "") == lowerStr v) &&
  (match q.partUsed with
   | none => true
   | some v => item.PartsUsed.length == 1 &&
       lowerStr (item.PartsUsed.headD "") == lowerStr v)

/-- Spec wording of the default branch (spec 4.6): every non-null filter
occurs case-insensitively as a substring of the species name, of some
service, or of some part, respectively. -/
def specDefaultMatches (q : Query) (item : SpeciesRec E S) : Bool :=
  (match q.species with
   | none => true
   | some v => jsIncludes (lowerStr item.Species) (lowerStr v)) &&
  (match q.ecosystemService with
   | none => true
   | some v => anyContains item.EcosystemService v) &&
  (match q.partUsed with
   | none => true
   | some v => anyContains item.PartsUsed v)

/-- Spec wording of the `and` conjunction (spec 4.6): each present value
is a case-insensitive substring-membership predicate. -/
def specAndMatches (a : AndClause) (item : SpeciesRec E S) : Bool :=
  (match a.ecosystemService with
   | none => true
   | some v => anyContains item.EcosystemService v) &&
  (match a.partUsed with
   | none => true
   | some v => anyContains item.PartsUsed v)

/-! ### Cosine similarity over idealized JS numbers (route.ts lines 263-268)

JavaScript numbers are IEEE-754 doubles; the arithmetic of
`cosineSimilarity` is modelled over `ℝ` with the special values made
explicit in the result type: `JNum.nan` for NaN and `JNum.inf s` for the
signed infinities produced by dividing a nonzero value by zero. -/

inductive JNum where
  | nan : JNum
  | inf : Bool → JNum
  | fin : ℝ → JNum

/-- `a.reduce((sum, ai, i) => sum + ai * b[i], 0)` for equal-length
vectors. -/
def dotProduct (a b : List ℝ) : ℝ :=
  (a.zip b).foldl (fun s p => s + p.1 * p.2) 0

/-- `a.reduce((sum, ai) => sum + ai * ai, 0)`, the squared Euclidean
norm. -/
def sumSq (a : List ℝ) : ℝ := a.foldl (fun s x => s + x * x) 0

open Classical in
/-- `cosineSimilarity(a, b) = dot / (normA * normB)` with no guard on the
divisor: a zero divisor yields NaN when the dividend is also zero (the
only reachable case, since a zero norm forces a zero dot product) and a
signed infinity otherwise. -/
noncomputable def cosineSimilarity (a b : List ℝ) : JNum :=
  let dot := dotProduct a b
  let normA := Real.sqrt (sumSq a)
  let normB := Real.sqrt (sumSq b)
  if normA * normB = 0 then
    if dot = 0 then JNum.nan else JNum.inf (0 < dot)
  else JNum.fin (dot / (normA * normB))

open Classical in
/-- JS subtraction on the idealized numbers: NaN propagates, `∞ - ∞` is
NaN.  The sort comparator `(a, b) => b.similarity - a.similarity` computes
exactly this. -/
noncomputable def jsub : JNum → JNum → JNum
  | JNum.nan, _ => JNum.nan
  | JNum.inf _, JNum.nan => JNum.nan
  | JNum.inf b, JNum.inf c => if b = c then JNum.nan else JNum.inf b
  | JNum.inf b, JNum.fin _ => JNum.inf b
  | JNum.fin _, JNum.nan => JNum.nan
  | JNum.fin _, JNum.inf b => JNum.inf !b
  | JNum.fin x, JNum.fin y => JNum.fin (x - y)

/-- "comparator result is negative": the only outcome that makes
`Array.prototype.sort` place the first argument earlier. -/
def JNum.isNeg : JNum → Prop
  | JNum.nan => False
  | JNum.inf b => b = false
  | JNum.fin x => x < 0

/-- "comparator result is positive": the only outcome that makes
`Array.prototype.sort` place the first argument later. -/
def JNum.isPos : JNum → Prop
  | JNum.nan => False
  | JNum.inf b => b = true
  | JNum.fin x => 0 < x

/-! ### Concrete sample data reused by witnesses and counterexamples -/

/-- A loaded catalog entry as produced by `scripts/add-embeddings.ts`
(no `similarity` key). -/
def ingaRec : SpeciesRec Unit Unit :=
  { Species := "Inga edulis", Family := "Fabaceae",
    EcosystemService := ["Food"], PartsUsed := ["fruit"],
    RelatedFunctionalTraits := ["Nitrogen fixation"],
    embedding := (), similarity := none }

/-- A loaded entry with two services, rational payloads. -/
def cedrelaRec : SpeciesRec ℚ ℚ :=
  { Species := "Cedrela odorata", Family := "Meliaceae",
    EcosystemService := ["Raw Material", "Medicinal"], PartsUsed := ["bark"],
    RelatedFunctionalTraits := [], embedding := 0, similarity := none }

/-- A single-service, single-part loaded entry, rational payloads. -/
def hevbraRec : SpeciesRec ℚ ℚ :=
  { Species := "Hevea brasiliensis", Family := "Euphorbiaceae",
    EcosystemService := ["Raw Material"], PartsUsed := ["latex"],
    RelatedFunctionalTraits := [], embedding := 0, similarity := none }

/-- An entry with an empty services array (the source data may leave the
array empty). -/
def emptyServicesRec : SpeciesRec Unit Unit :=
  { Species := "Unknown sp.", Family := "",
    EcosystemService := [], PartsUsed := ["root"],
    RelatedFunctionalTraits := [], embedding := (), similarity := none }

/-- The all-null query (no constraints, no modifiers). -/
def trivialQuery : Query :=
  { species := none, ecosystemService := none, partUsed := none }

/-- A legal-but-adversarial vocabulary table: the second pair's canonical
label collides case-insensitively with the first pair's. -/
def badTable : List (String × List String) :=
  [("FOOD", []), ("food", ["meal"])]

/-! ## Supporting lemmas -/

theorem listIsInfix_nil (l : List Char) : listIsInfix [] l = true := by
  cases l <;> simp [listIsInfix, List.isPrefixOf]

theorem jsIncludes_empty (s : String) : jsIncludes s "" = true := by
  have h : ("" : String).data = [] := rfl
  rw [jsIncludes, h]
  exact listIsInfix_nil s.data

theorem lowerStr_empty : lowerStr "" = "" := rfl

theorem optTruthy_some_iff (v : String) :
    optTruthy (some v) = true ↔ v ≠ "" := by
  simp [optTruthy, Bool.eq_false_iff, String.isEmpty_iff]

theorem optTruthy_some_false_iff (v : String) :
    optTruthy (some v) = false ↔ v = "" := by
  simp [optTruthy, String.isEmpty_iff]

theorem normPred_eq_tableMatches (v : String) (p : String × List String) :
    (lowerStr p.1 == lowerStr (trimStr v) ||
     p.2.any (fun syn => lowerStr syn == lowerStr (trimStr v))) = true ↔
    tableMatches v p := by
  simp [tableMatches, List.any_eq_true]

theorem normTableHit_eq_none_iff (v : String)
    (T : List (String × List String)) :
    normTableHit v T = none ↔ ∀ p ∈ T, ¬ tableMatches v p := by
  rw [normTableHit, List.find?_eq_none]
  constructor
  · intro h p hp hm
    exact h p hp ((normPred_eq_tableMatches v p).mpr hm)
  · intro h p hp hm
    exact h p hp ((normPred_eq_tableMatches v p).mp hm)

theorem normTableHit_some {v : String} {T : List (String × List String)}
    {p : String × List String} (h : normTableHit v T = some p) :
    p ∈ T ∧ tableMatches v p := by
  rw [normTableHit] at h
  refine ⟨List.mem_of_find?_eq_some h, ?_⟩
  have h2 := List.find?_some h
  exact (normPred_eq_tableMatches v p).mp h2

theorem isEmpty_false_of_ne {v : String} (hv : v ≠ "") :
    v.isEmpty = true → False := by
  intro h
  exact hv ((String.isEmpty_iff v).mp h)

theorem normalizeField_some_of_hit {v : String}
    {T : List (String × List String)} {p : String × List String}
    (hv : v ≠ "") (h : normTableHit v T = some p) :
    normalizeField (some v) T = some p.1 := by
  simp only [normalizeField]
  rw [if_neg (isEmpty_false_of_ne hv), h]

theorem normalizeField_some_of_miss {v : String}
    {T : List (String × List String)}
    (hv : v ≠ "") (h : normTableHit v T = none) :
    normalizeField (some v) T = some v := by
  simp only [normalizeField]
  rw [if_neg (isEmpty_false_of_ne hv), h]

/-! ## C8: totality and case behavior of the normalizer -/

/-- C8 (amended): `normalizeField` never fails: `null` input yields
`null`, and — contrary to the claim — the **empty string** also yields
`null` (JavaScript `!value` is true for `""`); a nonempty input whose
trimmed lower-cased form equals a pair's canonical label
(case-insensitively) or one of its synonyms yields that pair's canonical
label; any other nonempty input is returned unchanged (untrimmed,
original case). -/
theorem c8_normalizeField_behavior (T : List (String × List String)) :
    normalizeField none T = none ∧
    normalizeField (some "") T = none ∧
    (∀ v : String, v ≠ "" → (∃ p ∈ T, tableMatches v p) →
      ∃ p ∈ T, tableMatches v p ∧ normalizeField (some v) T = some p.1) ∧
    (∀ v : String, v ≠ "" → (∀ p ∈ T, ¬ tableMatches v p) →
      normalizeField (some v) T = some v) := by
  refine ⟨rfl, ?_, ?_, ?_⟩
  · have h : ("" : String).isEmpty = true := rfl
    simp [normalizeField, h]
  · intro v hv hex
    cases hhit : normTableHit v T with
    | none =>
      rcases hex with ⟨p0, hp0, hm0⟩
      exact absurd hm0 ((normTableHit_eq_none_iff v T).mp hhit p0 hp0)
    | some p =>
      rcases normTableHit_some hhit with ⟨hpT, hpm⟩
      exact ⟨p, hpT, hpm, normalizeField_some_of_hit hv hhit⟩
  · intro v hv hall
    cases hhit : normTableHit v T with
    | none => exact normalizeField_some_of_miss hv hhit
    | some p =>
      rcases normTableHit_some hhit with ⟨hpT, hpm⟩
      exact absurd hpm (hall p hpT)

/-- C8 witness: `" LEAF "` trims and lower-cases to the synonym `"leaf"`
and normalizes to the canonical `"leaves"`; the unknown token `"zzz"`
passes through unchanged. -/
theorem c8_witness :
    (∃ p ∈ partUsedSynonyms, tableMatches " LEAF " p ∧
      normalizeField (some " LEAF ") partUsedSynonyms = some p.1) ∧
    normalizeField (some "zzz") partUsedSynonyms = some "zzz" := by
  constructor
  · exact (c8_normalizeField_behavior partUsedSynonyms).2.2.1 " LEAF "
      (by decide)
      ⟨("leaves", ["leaf", "leaves", "edible leaves"]), by decide, by decide⟩
  · exact (c8_normalizeField_behavior partUsedSynonyms).2.2.2 "zzz"
      (by decide) (by decide)

/-- C8 counterexample: the empty string matches no vocabulary pair, so
the claim ("otherwise returns the original input unchanged") requires
`some ""`, but the code returns `none`. -/
theorem c8_counterexample :
    (∀ p ∈ partUsedSynonyms, ¬ tableMatches "" p) ∧
    normalizeField (some "") partUsedSynonyms = none ∧
    (none : Option String) ≠ some "" :=
  ⟨by decide, by decide, by decide⟩

/-! ## C9: idempotence of the normalizer -/

/-- C9 (amended): `normalize(normalize(x, T), T) = normalize(x, T)` holds
for every table `T` whose canonical labels are nonempty and normalize
back to themselves (`goodTable T`, true of both vocabulary tables of the
route), and for every input `x`; it fails for general tables. -/
theorem c9_normalize_idempotent (T : List (String × List String))
    (hT : goodTable T = true) (x : Option String) :
    normalizeField (normalizeField x T) T = normalizeField x T := by
  cases x with
  | none => rfl
  | some v =>
    by_cases hv : v = ""
    · subst hv
      have h : ("" : String).isEmpty = true := rfl
      simp [normalizeField, h]
    · cases hhit : normTableHit v T with
      | none =>
        have h1 := normalizeField_some_of_miss hv hhit
        rw [h1, h1]
      | some p =>
        have h1 := normalizeField_some_of_hit hv hhit
        rw [h1]
        rcases normTableHit_some hhit with ⟨hpT, -⟩
        have hg := List.all_eq_true.mp hT p hpT
        rw [Bool.and_eq_true] at hg
        rcases hg with ⟨hg1, hg2⟩
        have hne : p.1 ≠ "" := by
          intro he
          rw [he] at hg1
          exact absurd hg1 (by decide)
        have hmap : (normTableHit p.1 T).map Prod.fst = some p.1 :=
          beq_iff_eq.mp hg2
        rcases Option.map_eq_some'.mp hmap with ⟨q, hq, hq1⟩
        rw [normalizeField_some_of_hit hne hq, hq1]

/-- C9 witness: the part vocabulary is a `goodTable`, and `"Wood"`
(normalizing to `"trunk"`) is a fixed point of a second normalization. -/
theorem c9_witness :
    goodTable partUsedSynonyms = true ∧
    normalizeField (normalizeField (some "Wood") partUsedSynonyms)
      partUsedSynonyms = normalizeField (some "Wood") partUsedSynonyms :=
  ⟨by decide, c9_normalize_idempotent partUsedSynonyms (by decide)
    (some "Wood")⟩

/-- C9 counterexample: on `badTable`, `"meal"` normalizes to `"food"`,
but a second pass turns `"food"` into `"FOOD"`: idempotence fails for a
general table, refuting the claim's unrestricted quantification. -/
theorem c9_counterexample :
    normalizeField (normalizeField (some "meal") badTable) badTable ≠
      normalizeField (some "meal") badTable := by decide

/-! ## First-hit characterizations of the scanning loops -/

theorem getD_of_lt (l : List α) (d : α) (j : ℕ) (hj : j < l.length) :
    l.getD j d = l.get ⟨j, hj⟩ := by
  rw [List.getD_eq_getElem?_getD, List.getElem?_eq_getElem hj]
  rfl

theorem find?_eq_get_of_first (l : List α) (p : α → Bool) :
    ∀ (k : ℕ) (hk : k < l.length),
      (∀ j (hj : j < k), p (l.get ⟨j, hj.trans hk⟩) = false) →
      p (l.get ⟨k, hk⟩) = true → l.find? p = some (l.get ⟨k, hk⟩) := by
  induction l with
  | nil => intro k hk; exact absurd hk (Nat.not_lt_zero k)
  | cons a t ih =>
    intro k hk hb hm
    cases k with
    | zero => exact List.find?_cons_of_pos t hm
    | succ k' =>
      have ha : p a = false := hb 0 (Nat.succ_pos k')
      have hrec := ih k' (Nat.lt_of_succ_lt_succ hk)
        (fun j hj => hb (j + 1) (Nat.succ_lt_succ hj)) hm
      rw [List.find?_cons_of_neg t (by simp [ha])]
      exact hrec

theorem foldrCapture_first (s : String) :
    ∀ (l : List (String × String)) (k : ℕ) (hk : k < l.length)
      (tok : String),
      (∀ j (hj : j < k), patCapture (l.get ⟨j, hj.trans hk⟩) s = none) →
      patCapture (l.get ⟨k, hk⟩) s = some tok →
      l.foldr (fun pat acc => match patCapture pat s with
        | some cap => some cap
        | none => acc) none = some tok := by
  intro l
  induction l with
  | nil => intro k hk; exact absurd hk (Nat.not_lt_zero k)
  | cons a t ih =>
    intro k hk tok hb hm
    have hstep : (a :: t).foldr (fun pat acc => match patCapture pat s with
        | some cap => some cap
        | none => acc) none
        = (match patCapture a s with
           | some cap => some cap
           | none => t.foldr (fun pat acc => match patCapture pat s with
               | some cap => some cap
               | none => acc) none) := rfl
    cases k with
    | zero =>
      have hm' : patCapture a s = some tok := hm
      rw [hstep, hm']
    | succ k' =>
      have ha : patCapture a s = none := hb 0 (Nat.succ_pos k')
      have hrec := ih k' (Nat.lt_of_succ_lt_succ hk) tok
        (fun j hj => hb (j + 1) (Nat.succ_lt_succ hj)) hm
      rw [hstep, ha]
      exact hrec

theorem firstPatternCapture_of_first (q : String) (k : ℕ)
    (hk : k < onlyPatterns.length) (tok : String)
    (hb : ∀ j (hj : j < k),
      patCapture (onlyPatterns.get ⟨j, hj.trans hk⟩) q = none)
    (hm : patCapture (onlyPatterns.get ⟨k, hk⟩) q = some tok) :
    firstPatternCapture q = some tok :=
  foldrCapture_first q onlyPatterns k hk tok hb hm

theorem heuristicParse_of_pattern (question tok : String)
    (h : firstPatternCapture (lowerStr question) = some tok) :
    heuristicParse question =
      { query :=
          { species := none,
            ecosystemService := serviceScan (lowerStr question),
            partUsed := some (normalizeOnlyPart tok) },
        onlyFlag := true } := by
  simp only [heuristicParse, h]

theorem heuristicParse_no_pattern (question : String)
    (h : firstPatternCapture (lowerStr question) = none) :
    heuristicParse question =
      { query :=
          { species := none,
            ecosystemService := serviceScan (lowerStr question),
            partUsed :=
              if (serviceScan (lowerStr question)).isSome then none
              else partScan (lowerStr question) },
        onlyFlag := false } := by
  simp only [heuristicParse, h]

/-! ## C6: service-before-part precedence of the heuristic parser -/

/-- C6 (amended): the heuristic parser sets `ecosystemService` to the
first canonical service label one of whose synonyms occurs in the
lower-cased question (earlier pairs having no occurring synonym), and it
scans part synonyms only when no service matched — so a question
containing both a service synonym and a part synonym, **and matching no
exclusivity pattern**, resolves with `ecosystemService` set and `partUsed`
null.  (Without the exclusivity proviso the claim is false: the pattern
step of the parser can set `partUsed` even when a service matched.) -/
theorem c6_service_precedence (question : String) (k : ℕ)
    (hk : k < ecosystemServiceSynonyms.length)
    (hb : ∀ j, j < k →
      ∀ syn ∈ (ecosystemServiceSynonyms.getD j ("", [])).2,
        jsIncludes (lowerStr question) syn = false)
    (hm : ∃ syn ∈ (ecosystemServiceSynonyms.getD k ("", [])).2,
      jsIncludes (lowerStr question) syn = true) :
    (heuristicParse question).query.ecosystemService
      = some (ecosystemServiceSynonyms.getD k ("", [])).1 ∧
    (firstPatternCapture (lowerStr question) = none →
      (heuristicParse question).query.partUsed = none) := by
  have hgk := getD_of_lt ecosystemServiceSynonyms ("", []) k hk
  have hfind : ecosystemServiceSynonyms.find? (fun p =>
      p.2.any (fun syn => jsIncludes (lowerStr question) syn))
      = some (ecosystemServiceSynonyms.get ⟨k, hk⟩) := by
    apply find?_eq_get_of_first
    · intro j hj
      have h' := hb j hj
      rw [getD_of_lt ecosystemServiceSynonyms ("", []) j (hj.trans hk)] at h'
      show (ecosystemServiceSynonyms.get ⟨j, hj.trans hk⟩).2.any
        (fun syn => jsIncludes (lowerStr question) syn) = false
      rw [Bool.eq_false_iff]
      intro hocc
      rw [List.any_eq_true] at hocc
      rcases hocc with ⟨syn, hsyn, htrue⟩
      rw [h' syn hsyn] at htrue
      exact Bool.false_ne_true htrue
    · rcases hm with ⟨syn, hsyn, hocc⟩
      rw [hgk] at hsyn
      show (ecosystemServiceSynonyms.get ⟨k, hk⟩).2.any
        (fun syn => jsIncludes (lowerStr question) syn) = true
      rw [List.any_eq_true]
      exact ⟨syn, hsyn, hocc⟩
  have hserv : serviceScan (lowerStr question)
      = some (ecosystemServiceSynonyms.getD k ("", [])).1 := by
    rw [serviceScan, hfind, hgk]
    rfl
  constructor
  · cases hfp : firstPatternCapture (lowerStr question) with
    | some tok => rw [heuristicParse_of_pattern question tok hfp]; exact hserv
    | none => rw [heuristicParse_no_pattern question hfp]; exact hserv
  · intro hfp
    rw [heuristicParse_no_pattern question hfp]
    show (if (serviceScan (lowerStr question)).isSome then none
      else partScan (lowerStr question)) = none
    rw [hserv]
    rfl

/-- C6 witness: `"What food comes from bark?"` contains both the service
synonym `"food"` and the part synonym `"bark"` and matches no exclusivity
pattern; the parser resolves `ecosystemService = "Food"` and leaves
`partUsed` null. -/
theorem c6_witness :
    jsIncludes (lowerStr "What food comes from bark?") "food" = true ∧
    jsIncludes (lowerStr "What food comes from bark?") "bark" = true ∧
    (heuristicParse "What food comes from bark?").query.ecosystemService
      = some "Food" ∧
    (heuristicParse "What food comes from bark?").query.partUsed = none := by
  have h := c6_service_precedence "What food comes from bark?" 1 (by decide)
    (by
      intro j hj
      have hj0 : j = 0 := Nat.lt_one_iff.mp hj
      subst hj0
      decide)
    (by decide)
  exact ⟨by decide, by decide, h.1.trans (by decide), h.2 (by decide)⟩

/-- C6 counterexample: `"Show me food trees where only the leaves are
used."` contains both a service synonym (`"food"`) and a part synonym
(`"leaves"`), yet the parser resolves `partUsed = some "leaves"` (the
exclusivity pattern step overwrites it), refuting the claim that
`partUsed` remains null whenever both kinds of synonym occur. -/
theorem c6_counterexample :
    jsIncludes (lowerStr "Show me food trees where only the leaves are used.")
      "food" = true ∧
    jsIncludes (lowerStr "Show me food trees where only the leaves are used.")
      "leaves" = true ∧
    (heuristicParse
      "Show me food trees where only the leaves are used.").query.ecosystemService
      = some "Food" ∧
    (heuristicParse
      "Show me food trees where only the leaves are used.").query.partUsed
      = some "leaves" := by decide

/-! ## C7: exclusivity-pattern detection of the heuristic parser -/

theorem onlyPartPred_iff (tok : String) (p : String × List String) :
    (lowerStr p.1 == tok || p.2.contains tok) = true ↔
      (lowerStr p.1 = tok ∨ tok ∈ p.2) := by
  simp [List.contains, List.elem_iff]

theorem normalizeOnlyPart_hit (tok : String)
    (hex : ∃ p ∈ partUsedSynonyms, lowerStr p.1 = tok ∨ tok ∈ p.2) :
    ∃ p ∈ partUsedSynonyms,
      (lowerStr p.1 = tok ∨ tok ∈ p.2) ∧ normalizeOnlyPart tok = p.1 := by
  cases hfind : partUsedSynonyms.find? (fun p =>
      lowerStr p.1 == tok || p.2.contains tok) with
  | none =>
    rcases hex with ⟨p0, hp0, hm0⟩
    rw [List.find?_eq_none] at hfind
    exact absurd ((onlyPartPred_iff tok p0).mpr hm0) (hfind p0 hp0)
  | some p =>
    have hmem := List.mem_of_find?_eq_some hfind
    have hpred := List.find?_some hfind
    refine ⟨p, hmem, (onlyPartPred_iff tok p).mp hpred, ?_⟩
    rw [normalizeOnlyPart, hfind]

theorem normalizeOnlyPart_miss (tok : String)
    (hall : ∀ p ∈ partUsedSynonyms, ¬(lowerStr p.1 = tok ∨ tok ∈ p.2)) :
    normalizeOnlyPart tok = tok := by
  cases hfind : partUsedSynonyms.find? (fun p =>
      lowerStr p.1 == tok || p.2.contains tok) with
  | none => rw [normalizeOnlyPart, hfind]
  | some p =>
    have hmem := List.mem_of_find?_eq_some hfind
    have hpred := List.find?_some hfind
    exact absurd ((onlyPartPred_iff tok p).mp hpred) (hall p hmem)

/-- C7: independently of the service/part scans, the question is tested
against the four exclusivity patterns in order; on the first pattern that
matches (all earlier patterns failing), `only` is set to `true` and
`partUsed` is set to the normalized form of the captured token — the
canonical label of the first vocabulary pair whose label lower-cases to
the token or whose synonym list contains it verbatim, falling back to the
raw token when no pair matches — and no later pattern is consulted. -/
theorem c7_exclusivity_patterns (question tok : String) (k : ℕ)
    (hk : k < onlyPatterns.length)
    (hb : ∀ j, j < k →
      patCapture (onlyPatterns.getD j ("", "")) (lowerStr question) = none)
    (hm : patCapture (onlyPatterns.getD k ("", "")) (lowerStr question)
      = some tok) :
    (heuristicParse question).onlyFlag = true ∧
    (heuristicParse question).query.partUsed
      = some (normalizeOnlyPart tok) ∧
    ((∃ p ∈ partUsedSynonyms, lowerStr p.1 = tok ∨ tok ∈ p.2) →
      ∃ p ∈ partUsedSynonyms,
        (lowerStr p.1 = tok ∨ tok ∈ p.2) ∧ normalizeOnlyPart tok = p.1) ∧
    ((∀ p ∈ partUsedSynonyms, ¬(lowerStr p.1 = tok ∨ tok ∈ p.2)) →
      normalizeOnlyPart tok = tok) := by
  have hfp : firstPatternCapture (lowerStr question) = some tok := by
    apply firstPatternCapture_of_first (lowerStr question) k hk tok
    · intro j hj
      rw [← getD_of_lt onlyPatterns ("", "") j (hj.trans hk)]
      exact hb j hj
    · rw [← getD_of_lt onlyPatterns ("", "") k hk]
      exact hm
  rw [heuristicParse_of_pattern question tok hfp]
  exact ⟨rfl, rfl, normalizeOnlyPart_hit tok, normalizeOnlyPart_miss tok⟩

/-- C7 witness: the spec's example question matches the first pattern
with capture `"leaves"`, which normalizes to itself: the parse yields
`only = true` and `partUsed = "leaves"`. -/
theorem c7_witness :
    (heuristicParse "Show me trees that only the leaves are used.").onlyFlag
      = true ∧
    (heuristicParse
      "Show me trees that only the leaves are used.").query.partUsed
      = some "leaves" := by
  have h := c7_exclusivity_patterns
    "Show me trees that only the leaves are used." "leaves" 0 (by decide)
    (fun j hj => absurd hj (Nat.not_lt_zero j)) (by decide)
  refine ⟨h.1, ?_⟩
  rw [h.2.1]
  decide

/-! ## Pipeline plumbing lemmas -/

theorem insertByLe_perm (le : α → α → Bool) (x : α) (l : List α) :
    (insertByLe le x l).Perm (x :: l) := by
  induction l with
  | nil => simp [insertByLe]
  | cons y t ih =>
    simp only [insertByLe]
    by_cases h : le x y = true
    · simp [h]
    · simp only [Bool.not_eq_true] at h
      simp only [h]
      exact (List.Perm.cons y ih).trans (List.Perm.swap x y t)

theorem stableSortBy_perm (le : α → α → Bool) (l : List α) :
    (stableSortBy le l).Perm l := by
  induction l with
  | nil => simp [stableSortBy]
  | cons x t ih =>
    exact (insertByLe_perm le x (stableSortBy le t)).trans (List.Perm.cons x ih)

theorem mem_of_mem_filterIf {c : Bool} {p : α → Bool} {l : List α} {x : α}
    (h : x ∈ (if c = true then l.filter p else l)) : x ∈ l := by
  by_cases hc : c = true
  · rw [if_pos hc] at h
    exact (List.mem_filter.mp h).1
  · rw [if_neg hc] at h
    exact h

theorem mem_rankedList {E S : Type} (sLe : S → S → Bool)
    (scored : List (SpeciesRec E S)) (x : SpeciesRec E S) :
    x ∈ rankedList sLe scored ↔ x ∈ scored :=
  (stableSortBy_perm _ scored).mem_iff

theorem mem_scoredList {E S : Type} {sim : E → E → S} {qEmb : E}
    {catalog : List (SpeciesRec E S)} {x : SpeciesRec E S}
    (h : x ∈ scoredList sim qEmb catalog) :
    ∃ e ∈ catalog, x = { e with similarity := some (sim qEmb e.embedding) } := by
  rcases List.mem_map.mp h with ⟨e, he, hx⟩
  exact ⟨e, he, hx.symm⟩

theorem applyAnd_subset {E S : Type} (ac : Option AndClause)
    (l : List (SpeciesRec E S)) (x : SpeciesRec E S)
    (h : x ∈ applyAnd ac l) : x ∈ l := by
  cases ac with
  | none => exact h
  | some a =>
    simp only [applyAnd] at h
    exact mem_of_mem_filterIf (mem_of_mem_filterIf h)

theorem reapplyOnly_subset {E S : Type} (q : Query) (ofl : Bool)
    (l : List (SpeciesRec E S)) (x : SpeciesRec E S)
    (h : x ∈ reapplyOnly q ofl l) : x ∈ l := by
  cases ofl with
  | false => exact h
  | true =>
    simp only [reapplyOnly, if_true] at h
    exact mem_of_mem_filterIf (mem_of_mem_filterIf h)

/-! ## C1: the count path -/

/-- C1 (amended): for every request whose question matches the count
regex, the response is only the cardinality of the final filtered set
(`{count: N}`); however the image-enrichment collaborator **is** still
invoked once per element of the final filtered set, because the code
performs the enrichment before the count check — the claim's
"never invoked on the count path" is false. -/
theorem c1_count_path {E S : Type} (sim : E → E → S) (sLe : S → S → Bool)
    (question : String) (q : Query) (onlyFlag : Bool)
    (andClause : Option AndClause) (catalog : List (SpeciesRec E S))
    (qEmb : E) (imagesFor : String → List String)
    (h : isCountQuery question = true) :
    (runPipeline sim sLe question q onlyFlag andClause catalog qEmb
        imagesFor).response
      = ApiResponse.count
          (finalFiltered sim sLe q onlyFlag andClause catalog qEmb).length ∧
    (runPipeline sim sLe question q onlyFlag andClause catalog qEmb
        imagesFor).imageCalls
      = (finalFiltered sim sLe q onlyFlag andClause catalog qEmb).map
          (fun item => item.Species) := by
  refine ⟨?_, rfl⟩
  simp [runPipeline, h]

/-- C1 witness: a count question over a one-entry catalog answers
`{count: 1}` while the enrichment collaborator is invoked on the single
surviving species. -/
theorem c1_witness :
    (runPipeline (fun _ _ => ()) (fun _ _ => true)
        "How many species provide food?" trivialQuery false none [ingaRec] ()
        (fun _ => [])).response = ApiResponse.count 1 ∧
    (runPipeline (fun _ _ => ()) (fun _ _ => true)
        "How many species provide food?" trivialQuery false none [ingaRec] ()
        (fun _ => [])).imageCalls = ["Inga edulis"] := by
  have h := c1_count_path (fun _ _ => ()) (fun _ _ => true)
    "How many species provide food?" trivialQuery false none [ingaRec] ()
    (fun _ => []) (by decide)
  exact ⟨h.1.trans (by decide), h.2.trans (by decide)⟩

/-- C1 counterexample: on the count question of the spec's own example,
the pipeline's enrichment-invocation log is nonempty — the collaborator
is invoked on the count path, refuting the claim's "never invoked". -/
theorem c1_counterexample :
    isCountQuery "How many species provide food?" = true ∧
    (runPipeline (fun _ _ => ()) (fun _ _ => true)
        "How many species provide food?" trivialQuery false none [ingaRec] ()
        (fun _ => [])).imageCalls = ["Inga edulis"] ∧
    (["Inga edulis"] : List String) ≠ [] := by decide

/-! ## C2: freshness of the similarity annotation on results -/

/-- C2 (amended): for every successful non-count request, the results are
the final filtered entries paired with their fetched images.  On the
default branch every result entry is a catalog entry annotated with a
similarity computed fresh from the question embedding for this request;
on the exclusivity (`only`) branch, however, the result entries are the
**raw loaded catalog entries**, whose `similarity` is whatever the load
produced (absent: the embedding producer writes no `similarity` key) —
the claim's "computed fresh on both branches" is false. -/
theorem c2_results_scoring {E S : Type} (sim : E → E → S) (sLe : S → S → Bool)
    (question : String) (q : Query) (onlyFlag : Bool)
    (andClause : Option AndClause) (catalog : List (SpeciesRec E S))
    (qEmb : E) (imagesFor : String → List String)
    (h : isCountQuery question = false) :
    (runPipeline sim sLe question q onlyFlag andClause catalog qEmb
        imagesFor).response
      = ApiResponse.results
          ((finalFiltered sim sLe q onlyFlag andClause catalog qEmb).map
            (fun item => (item, imagesFor item.Species))) ∧
    (onlyFlag = false →
      ∀ item ∈ finalFiltered sim sLe q onlyFlag andClause catalog qEmb,
        ∃ e ∈ catalog,
          item = { e with similarity := some (sim qEmb e.embedding) }) ∧
    (onlyFlag = true →
      ∀ item ∈ finalFiltered sim sLe q onlyFlag andClause catalog qEmb,
        item ∈ catalog) := by
  refine ⟨?_, ?_, ?_⟩
  · simp [runPipeline, h]
  · intro hofl item hmem
    subst hofl
    rw [finalFiltered] at hmem
    have h1 := reapplyOnly_subset _ _ _ _ (applyAnd_subset _ _ _ hmem)
    have h2 : item ∈ rankedList sLe (scoredList sim qEmb catalog) :=
      (List.mem_filter.mp h1).1
    exact mem_scoredList ((mem_rankedList sLe _ item).mp h2)
  · intro hofl item hmem
    subst hofl
    rw [finalFiltered] at hmem
    have h1 := reapplyOnly_subset _ _ _ _ (applyAnd_subset _ _ _ hmem)
    exact (List.mem_filter.mp h1).1

/-- C2 witness: on a default-branch (non-count) request over a one-entry
catalog, the single result entry carries the freshly computed similarity
annotation. -/
theorem c2_witness :
    (runPipeline (fun _ _ => (1 : ℚ)) (fun a b => decide (a ≤ b))
        "Which species provide food?" trivialQuery false none [cedrelaRec] 0
        (fun _ => [])).response
      = ApiResponse.results
          [({ cedrelaRec with similarity := some (1 : ℚ) }, [])] := by
  have h := c2_results_scoring (fun _ _ => (1 : ℚ)) (fun a b => decide (a ≤ b))
    "Which species provide food?" trivialQuery false none [cedrelaRec] 0
    (fun _ => []) (by decide)
  exact h.1.trans (by decide)

/-- C2 counterexample: on the exclusivity branch the single result entry
is the raw loaded record with `similarity` absent (`none`), not the fresh
score `some 1` demanded by the claim. -/
theorem c2_counterexample :
    isCountQuery "Show all species." = false ∧
    (runPipeline (fun _ _ => (1 : ℚ)) (fun a b => decide (a ≤ b))
        "Show all species." trivialQuery true none [cedrelaRec] 0
        (fun _ => [])).response
      = ApiResponse.results [(cedrelaRec, [])] ∧
    cedrelaRec.similarity = none ∧
    (none : Option ℚ) ≠ some 1 := by decide

/-! ## C3: the exclusivity branch -/

theorem specExcl_unfold {E S : Type} (q : Query) (item : SpeciesRec E S) :
    specExclMatches q item =
      ((match q.ecosystemService with
        | none => true
        | some v => exclES v item) &&
       (match q.partUsed with
        | none => true
        | some v => exclPU v item)) := rfl

/-- C3: with `only` truthy, the branch filter runs on the original,
unranked catalog (the ranked list is ignored: it is universally
quantified here and absent from the right-hand sides), an entry surviving
exactly when every set field's array has length exactly 1 with its sole
element equal to the query value case-insensitively; with neither field
set, the whole catalog survives.  The query fields are assumed not to be
the empty string, which the route guarantees: both extraction paths
produce either `null` or a nonempty label for them. -/
theorem c3_exclusivity_branch {E S : Type} (q : Query)
    (catalog ranked : List (SpeciesRec E S))
    (hES : q.ecosystemService ≠ some "") (hPU : q.partUsed ≠ some "") :
    reapplyOnly q true (branchFiltered q true catalog ranked)
      = catalog.filter (specExclMatches q) ∧
    (q.ecosystemService = none → q.partUsed = none →
      reapplyOnly q true (branchFiltered q true catalog ranked) = catalog) := by
  have hbr : branchFiltered q true catalog ranked
      = catalog.filter (onlyFilterPred q) := rfl
  have hmain : reapplyOnly q true (branchFiltered q true catalog ranked)
      = catalog.filter (specExclMatches q) := by
    rw [hbr]
    rcases hqe : q.ecosystemService with _ | v1 <;>
      rcases hqp : q.partUsed with _ | v2
    · simp only [reapplyOnly, if_true, hqe, hqp, optTruthy, Bool.false_eq_true,
        if_false]
      apply List.filter_congr
      intro x hx
      simp [onlyFilterPred, specExcl_unfold, hqe, hqp, optTruthy]
    · have hv2 : v2 ≠ "" := by
        intro he
        exact hPU (by rw [hqp, he])
      have ht2 : optTruthy (some v2) = true := (optTruthy_some_iff v2).mpr hv2
      have ht2' : (!v2.isEmpty) = true := ht2
      simp [reapplyOnly, hqe, hqp, optTruthy, ht2', List.filter_filter]
      apply List.filter_congr
      intro x hx
      cases hB : exclPU v2 x <;>
        simp [onlyFilterPred, specExcl_unfold, hqe, hqp, optTruthy, ht2', hB]
    · have hv1 : v1 ≠ "" := by
        intro he
        exact hES (by rw [hqe, he])
      have ht1 : optTruthy (some v1) = true := (optTruthy_some_iff v1).mpr hv1
      have ht1' : (!v1.isEmpty) = true := ht1
      simp [reapplyOnly, hqe, hqp, optTruthy, ht1', List.filter_filter]
      apply List.filter_congr
      intro x hx
      cases hA : exclES v1 x <;>
        simp [onlyFilterPred, specExcl_unfold, hqe, hqp, optTruthy, ht1', hA]
    · have hv1 : v1 ≠ "" := by
        intro he
        exact hES (by rw [hqe, he])
      have ht1 : optTruthy (some v1) = true := (optTruthy_some_iff v1).mpr hv1
      have ht1' : (!v1.isEmpty) = true := ht1
      have hv2 : v2 ≠ "" := by
        intro he
        exact hPU (by rw [hqp, he])
      have ht2 : optTruthy (some v2) = true := (optTruthy_some_iff v2).mpr hv2
      have ht2' : (!v2.isEmpty) = true := ht2
      simp [reapplyOnly, hqe, hqp, optTruthy, ht1', ht2', List.filter_filter]
      apply List.filter_congr
      intro x hx
      cases hA : exclES v1 x <;> cases hB : exclPU v2 x <;>
        simp [onlyFilterPred, specExcl_unfold, hqe, hqp, optTruthy, ht1', ht2',
          hA, hB]
  refine ⟨hmain, ?_⟩
  intro he hp
  rw [hmain]
  have : ∀ x ∈ catalog, specExclMatches q x = true := by
    intro x hx
    simp [specExcl_unfold, he, hp]
  calc catalog.filter (specExclMatches q)
      = catalog.filter (fun _ => true) := List.filter_congr this
    _ = catalog := List.filter_true catalog

/-- C3 witness: with query `{partUsed: "bark", only: true}` the entry
whose parts array is exactly `["bark"]` survives and the entry with a
different sole part is excluded; the result equals the spec-side filter
of the raw catalog. -/
theorem c3_witness :
    reapplyOnly ⟨none, none, some "bark"⟩ true
      (branchFiltered ⟨none, none, some "bark"⟩ true
        [cedrelaRec, hevbraRec] [])
      = [cedrelaRec, hevbraRec].filter
          (specExclMatches ⟨none, none, some "bark"⟩) ∧
    [cedrelaRec, hevbraRec].filter
        (specExclMatches ⟨none, none, some "bark"⟩) = [cedrelaRec] := by
  have h := c3_exclusivity_branch ⟨none, none, some "bark"⟩
    [cedrelaRec, hevbraRec] [] (by decide) (by decide)
  exact ⟨h.1, by decide⟩

/-! ## C4: the default branch -/

theorem defaultPred_eq_spec {E S : Type} (q : Query) (item : SpeciesRec E S)
    (hES : q.ecosystemService ≠ some "") (hPU : q.partUsed ≠ some "") :
    defaultFilterPred q item = specDefaultMatches q item := by
  have hsp : (!optTruthy q.species ||
      jsIncludes (lowerStr item.Species) (lowerStr (q.species.getD "")))
      = (match q.species with
         | none => true
         | some v => jsIncludes (lowerStr item.Species) (lowerStr v)) := by
    rcases q.species with _ | vs
    · simp [optTruthy]
    · by_cases hv : vs = ""
      · subst hv
        simp [optTruthy, lowerStr_empty, jsIncludes_empty]
      · have ht : optTruthy (some vs) = true := (optTruthy_some_iff vs).mpr hv
        simp [ht]
  have hes : (!optTruthy q.ecosystemService ||
      anyContains item.EcosystemService (q.ecosystemService.getD ""))
      = (match q.ecosystemService with
         | none => true
         | some v => anyContains item.EcosystemService v) := by
    rcases hqe : q.ecosystemService with _ | v1
    · simp [optTruthy]
    · have hv1 : v1 ≠ "" := fun he => hES (by rw [hqe, he])
      have ht : optTruthy (some v1) = true := (optTruthy_some_iff v1).mpr hv1
      simp [ht]
  have hpu : (!optTruthy q.partUsed ||
      anyContains item.PartsUsed (q.partUsed.getD ""))
      = (match q.partUsed with
         | none => true
         | some v => anyContains item.PartsUsed v) := by
    rcases hqp : q.partUsed with _ | v2
    · simp [optTruthy]
    · have hv2 : v2 ≠ "" := fun he => hPU (by rw [hqp, he])
      have ht : optTruthy (some v2) = true := (optTruthy_some_iff v2).mpr hv2
      simp [ht]
  show (((!optTruthy q.species ||
      jsIncludes (lowerStr item.Species) (lowerStr (q.species.getD ""))) &&
    (!optTruthy q.ecosystemService ||
      anyContains item.EcosystemService (q.ecosystemService.getD ""))) &&
    (!optTruthy q.partUsed ||
      anyContains item.PartsUsed (q.partUsed.getD "")))
    = specDefaultMatches q item
  rw [hsp, hes, hpu]
  rfl

/-- C4: with `only` falsy, the branch filter runs on the
similarity-ranked catalog, preserving its order (the result is a `filter`
of the ranked list); an entry survives exactly when every non-null query
field occurs case-insensitively as a substring of the species name /
some service / some part; and the all-null query with no modifiers
returns the entire ranked catalog.  As in C3 the service/part fields are
assumed non-empty-string, which both extraction paths guarantee (the
species field needs no such assumption: an empty-string species filter
and a skipped one are both vacuously true). -/
theorem c4_default_branch {E S : Type} (sim : E → E → S) (sLe : S → S → Bool)
    (q : Query) (catalog : List (SpeciesRec E S)) (qEmb : E)
    (hES : q.ecosystemService ≠ some "") (hPU : q.partUsed ≠ some "") :
    branchFiltered q false catalog
        (rankedList sLe (scoredList sim qEmb catalog))
      = (rankedList sLe (scoredList sim qEmb catalog)).filter
          (specDefaultMatches q) ∧
    finalFiltered sim sLe q false none catalog qEmb
      = (rankedList sLe (scoredList sim qEmb catalog)).filter
          (specDefaultMatches q) ∧
    (q.species = none → q.ecosystemService = none → q.partUsed = none →
      finalFiltered sim sLe q false none catalog qEmb
        = rankedList sLe (scoredList sim qEmb catalog)) := by
  have hbf : branchFiltered q false catalog
      (rankedList sLe (scoredList sim qEmb catalog))
      = (rankedList sLe (scoredList sim qEmb catalog)).filter
          (defaultFilterPred q) := rfl
  have hff : finalFiltered sim sLe q false none catalog qEmb
      = branchFiltered q false catalog
          (rankedList sLe (scoredList sim qEmb catalog)) := rfl
  have hmain : branchFiltered q false catalog
      (rankedList sLe (scoredList sim qEmb catalog))
      = (rankedList sLe (scoredList sim qEmb catalog)).filter
          (specDefaultMatches q) := by
    rw [hbf]
    exact List.filter_congr (fun x _ => defaultPred_eq_spec q x hES hPU)
  refine ⟨hmain, hff.trans hmain, ?_⟩
  intro h1 h2 h3
  rw [hff, hmain]
  have hall : ∀ x ∈ rankedList sLe (scoredList sim qEmb catalog),
      specDefaultMatches q x = true := by
    intro x hx
    simp [specDefaultMatches, h1, h2, h3]
  rw [List.filter_congr hall, List.filter_true]

/-- C4 witness: the all-null query over a two-entry catalog returns the
whole ranked catalog, whose entries carry the fresh scores and keep the
stable order. -/
theorem c4_witness :
    finalFiltered (fun _ _ => (0 : ℚ)) (fun a b => decide (a ≤ b))
        trivialQuery false none [cedrelaRec, hevbraRec] 0
      = rankedList (fun a b => decide (a ≤ b))
          (scoredList (fun _ _ => (0 : ℚ)) 0 [cedrelaRec, hevbraRec]) ∧
    rankedList (fun a b => decide (a ≤ b))
        (scoredList (fun _ _ => (0 : ℚ)) 0 [cedrelaRec, hevbraRec])
      = [{ cedrelaRec with similarity := some (0 : ℚ) },
         { hevbraRec with similarity := some (0 : ℚ) }] := by
  have h := c4_default_branch (fun _ _ => (0 : ℚ)) (fun a b => decide (a ≤ b))
    trivialQuery [cedrelaRec, hevbraRec] 0 (by decide) (by decide)
  exact ⟨h.2.2 rfl rfl rfl, by decide⟩

/-! ## C5: the `and` conjunction -/

theorem applyAnd_eq_filter {E S : Type} (a : AndClause)
    (l : List (SpeciesRec E S))
    (hES : a.ecosystemService ≠ some "") (hPU : a.partUsed ≠ some "") :
    applyAnd (some a) l = l.filter (specAndMatches a) := by
  rcases hqe : a.ecosystemService with _ | v1 <;>
    rcases hqp : a.partUsed with _ | v2
  · have hskip : applyAnd (some a) l = l := by
      simp [applyAnd, hqe, hqp, optTruthy]
    have hall : ∀ x ∈ l, specAndMatches a x = true := by
      intro x hx
      simp [specAndMatches, hqe, hqp]
    rw [hskip, List.filter_congr hall, List.filter_true]
  · have hv2 : v2 ≠ "" := fun he => hPU (by rw [hqp, he])
    have ht2' : (!v2.isEmpty) = true := (optTruthy_some_iff v2).mpr hv2
    simp [applyAnd, hqe, hqp, optTruthy, ht2']
    apply List.filter_congr
    intro x hx
    simp [specAndMatches, hqe, hqp]
  · have hv1 : v1 ≠ "" := fun he => hES (by rw [hqe, he])
    have ht1' : (!v1.isEmpty) = true := (optTruthy_some_iff v1).mpr hv1
    simp [applyAnd, hqe, hqp, optTruthy, ht1']
    apply List.filter_congr
    intro x hx
    simp [specAndMatches, hqe, hqp]
  · have hv1 : v1 ≠ "" := fun he => hES (by rw [hqe, he])
    have ht1' : (!v1.isEmpty) = true := (optTruthy_some_iff v1).mpr hv1
    have hv2 : v2 ≠ "" := fun he => hPU (by rw [hqp, he])
    have ht2' : (!v2.isEmpty) = true := (optTruthy_some_iff v2).mpr hv2
    simp [applyAnd, hqe, hqp, optTruthy, ht1', ht2', List.filter_filter]
    apply List.filter_congr
    intro x hx
    cases hA : anyContains x.EcosystemService v1 <;>
      cases hB : anyContains x.PartsUsed v2 <;>
      simp [specAndMatches, hqe, hqp, hA, hB]

/-- C5 (amended): when the `and` clause is present and its set values are
nonempty strings, the final result set is exactly the primary branch's
result filtered by every `and` predicate — the intersection of the branch
result with each `and` constraint, logical AND, never union.  (For an
empty-string `and` value the code and the claim diverge: the code skips
the predicate while the claim's substring-membership predicate would
exclude entries whose corresponding array is empty — see the
counterexample.) -/
theorem c5_and_conjunction {E S : Type} (sim : E → E → S) (sLe : S → S → Bool)
    (q : Query) (ofl : Bool) (a : AndClause)
    (catalog : List (SpeciesRec E S)) (qEmb : E)
    (hES : a.ecosystemService ≠ some "") (hPU : a.partUsed ≠ some "") :
    finalFiltered sim sLe q ofl (some a) catalog qEmb
      = (reapplyOnly q ofl (branchFiltered q ofl catalog
          (rankedList sLe (scoredList sim qEmb catalog)))).filter
          (specAndMatches a) ∧
    ∀ item, item ∈ finalFiltered sim sLe q ofl (some a) catalog qEmb ↔
      (item ∈ reapplyOnly q ofl (branchFiltered q ofl catalog
          (rankedList sLe (scoredList sim qEmb catalog))) ∧
        specAndMatches a item = true) := by
  have h1 : finalFiltered sim sLe q ofl (some a) catalog qEmb
      = applyAnd (some a) (reapplyOnly q ofl (branchFiltered q ofl catalog
          (rankedList sLe (scoredList sim qEmb catalog)))) := rfl
  have h2 := applyAnd_eq_filter a
    (reapplyOnly q ofl (branchFiltered q ofl catalog
      (rankedList sLe (scoredList sim qEmb catalog)))) hES hPU
  refine ⟨h1.trans h2, ?_⟩
  intro item
  rw [h1, h2, List.mem_filter]

/-- C5 witness: the spec's example — query `{ecosystemService:
"Medicinal"}` with `and = {partUsed: "bark"}` — returns exactly the
entries satisfying both predicates. -/
theorem c5_witness :
    finalFiltered (fun _ _ => (0 : ℚ)) (fun a b => decide (a ≤ b))
        ⟨none, some "Medicinal", none⟩ false (some ⟨none, some "bark"⟩)
        [cedrelaRec, hevbraRec] 0
      = (reapplyOnly ⟨none, some "Medicinal", none⟩ false
          (branchFiltered ⟨none, some "Medicinal", none⟩ false
            [cedrelaRec, hevbraRec]
            (rankedList (fun a b => decide (a ≤ b))
              (scoredList (fun _ _ => (0 : ℚ)) 0
                [cedrelaRec, hevbraRec])))).filter
          (specAndMatches ⟨none, some "bark"⟩) ∧
    finalFiltered (fun _ _ => (0 : ℚ)) (fun a b => decide (a ≤ b))
        ⟨none, some "Medicinal", none⟩ false (some ⟨none, some "bark"⟩)
        [cedrelaRec, hevbraRec] 0
      = [{ cedrelaRec with similarity := some (0 : ℚ) }] := by
  have h := c5_and_conjunction (fun _ _ => (0 : ℚ)) (fun a b => decide (a ≤ b))
    ⟨none, some "Medicinal", none⟩ false ⟨none, some "bark"⟩
    [cedrelaRec, hevbraRec] 0 (by decide) (by decide)
  exact ⟨h.1, by decide⟩

/-- C5 counterexample: with the raw (unvalidated) `and` value
`{ecosystemService: ""}` and an entry whose services array is empty, the
code keeps the entry (empty string is falsy, the filter is skipped) while
the claim's intersection with the substring-membership predicate would
exclude it: the final set is not the claimed intersection. -/
theorem c5_counterexample :
    finalFiltered (fun _ _ => ()) (fun _ _ => true) trivialQuery false
        (some ⟨some "", none⟩) [emptyServicesRec] ()
      = [{ emptyServicesRec with similarity := some () }] ∧
    ([{ emptyServicesRec with similarity := some () }] :
        List (SpeciesRec Unit Unit)).filter
        (specAndMatches ⟨some "", none⟩) = [] ∧
    ([{ emptyServicesRec with similarity := some () }] :
        List (SpeciesRec Unit Unit)) ≠ [] := by decide

/-! ## C10: cosine similarity, its unguarded division and NaN flow -/

theorem sumSq_shift (l : List ℝ) (init : ℝ) :
    l.foldl (fun s x => s + x * x) init
      = init + l.foldl (fun s x => s + x * x) 0 := by
  induction l generalizing init with
  | nil => simp
  | cons a t ih =>
    simp only [List.foldl_cons]
    rw [ih (init + a * a), ih (0 + a * a)]
    ring

theorem dotFold_shift (l : List (ℝ × ℝ)) (init : ℝ) :
    l.foldl (fun s p => s + p.1 * p.2) init
      = init + l.foldl (fun s p => s + p.1 * p.2) 0 := by
  induction l generalizing init with
  | nil => simp
  | cons a t ih =>
    simp only [List.foldl_cons]
    rw [ih (init + a.1 * a.2), ih (0 + a.1 * a.2)]
    ring

theorem sumSq_cons (x : ℝ) (l : List ℝ) :
    sumSq (x :: l) = x * x + sumSq l := by
  simp only [sumSq, List.foldl_cons]
  rw [sumSq_shift l (0 + x * x)]
  ring_nf

theorem dotProduct_cons (x y : ℝ) (a b : List ℝ) :
    dotProduct (x :: a) (y :: b) = x * y + dotProduct a b := by
  simp only [dotProduct, List.zip_cons_cons, List.foldl_cons]
  rw [dotFold_shift (a.zip b) (0 + x * y)]
  ring_nf

theorem sumSq_nonneg (l : List ℝ) : 0 ≤ sumSq l := by
  induction l with
  | nil => simp [sumSq]
  | cons x t ih =>
    rw [sumSq_cons]
    nlinarith [mul_self_nonneg x]

theorem cauchy_schwarz_list (a : List ℝ) :
    ∀ b : List ℝ, (dotProduct a b) ^ 2 ≤ sumSq a * sumSq b := by
  induction a with
  | nil =>
    intro b
    simp [dotProduct, sumSq]
  | cons x a' ih =>
    intro b
    cases b with
    | nil => simp [dotProduct, sumSq]
    | cons y b' =>
      have hA := sumSq_nonneg a'
      have hB := sumSq_nonneg b'
      have hIH := ih b'
      rw [dotProduct_cons, sumSq_cons, sumSq_cons]
      rcases eq_or_lt_of_le hB with hB0 | hB0
      · have h1 : dotProduct a' b' ^ 2 ≤ 0 := by
          rw [← hB0] at hIH
          simpa using hIH
        have hD : dotProduct a' b' = 0 :=
          sq_eq_zero_iff.mp (le_antisymm h1 (sq_nonneg _))
        rw [hD, ← hB0]
        nlinarith [mul_nonneg hA (mul_self_nonneg y), mul_self_nonneg x,
          mul_self_nonneg y, mul_self_nonneg (x * y)]
      · nlinarith [sq_nonneg (x * sumSq b' - y * dotProduct a' b'),
          mul_nonneg (add_nonneg (mul_self_nonneg y) hB0.le)
            (sub_nonneg.mpr hIH), hB0, hA, hB]

theorem dotProduct_eq_zero_of_sumSq_zero (a b : List ℝ)
    (h : sumSq a = 0 ∨ sumSq b = 0) : dotProduct a b = 0 := by
  have hcs := cauchy_schwarz_list a b
  have h0 : dotProduct a b ^ 2 ≤ 0 := by
    rcases h with h | h <;> rw [h] at hcs <;> simpa using hcs
  exact sq_eq_zero_iff.mp (le_antisymm h0 (sq_nonneg _))

/-- C10: the division in `cosineSimilarity` is unguarded.  For
equal-length vectors: (1) when both Euclidean norms are nonzero
(equivalently, both sums of squares are nonzero) the result is a finite
number in `[-1, 1]`; (2) when either norm is zero the result is NaN
(a 0/0 division — the dot product is forced to zero too); (3) that NaN
becomes the `similarity` annotation in the scored catalog; and (4) the
sort comparator `b.similarity - a.similarity` evaluates to NaN against a
NaN score, which is neither negative nor positive, so the sort receives
no ordering constraint between NaN-scored entries. -/
theorem c10_cosine_unguarded (a b : List ℝ)
    (hlen : a.length = b.length) :
    ((sumSq a ≠ 0 ∧ sumSq b ≠ 0) →
      ∃ r : ℝ, cosineSimilarity a b = JNum.fin r ∧ -1 ≤ r ∧ r ≤ 1) ∧
    ((sumSq a = 0 ∨ sumSq b = 0) → cosineSimilarity a b = JNum.nan) ∧
    (∀ e : SpeciesRec (List ℝ) JNum, e.embedding = b →
      (sumSq a = 0 ∨ sumSq b = 0) →
      (scoredList cosineSimilarity a [e]).map (fun x => x.similarity)
        = [some JNum.nan]) ∧
    (∀ y : JNum, ¬ (jsub y JNum.nan).isNeg ∧ ¬ (jsub y JNum.nan).isPos ∧
      ¬ (jsub JNum.nan y).isNeg ∧ ¬ (jsub JNum.nan y).isPos) := by
  have _ := hlen
  have hnan : (sumSq a = 0 ∨ sumSq b = 0) →
      cosineSimilarity a b = JNum.nan := by
    intro h
    have hd : dotProduct a b = 0 := dotProduct_eq_zero_of_sumSq_zero a b h
    have hP : Real.sqrt (sumSq a) * Real.sqrt (sumSq b) = 0 := by
      rcases h with h | h
      · rw [h, Real.sqrt_zero, zero_mul]
      · rw [h, Real.sqrt_zero, mul_zero]
    simp only [cosineSimilarity]
    rw [if_pos hP, if_pos hd]
  refine ⟨?_, hnan, ?_, ?_⟩
  · rintro ⟨hA, hB⟩
    have hA' : 0 < sumSq a := (sumSq_nonneg a).lt_of_ne (Ne.symm hA)
    have hB' : 0 < sumSq b := (sumSq_nonneg b).lt_of_ne (Ne.symm hB)
    have hNA : 0 < Real.sqrt (sumSq a) := Real.sqrt_pos.mpr hA'
    have hNB : 0 < Real.sqrt (sumSq b) := Real.sqrt_pos.mpr hB'
    have hP : 0 < Real.sqrt (sumSq a) * Real.sqrt (sumSq b) := mul_pos hNA hNB
    refine ⟨dotProduct a b /
      (Real.sqrt (sumSq a) * Real.sqrt (sumSq b)), ?_, ?_, ?_⟩
    · simp only [cosineSimilarity]
      rw [if_neg hP.ne']
    · have hd2 : (dotProduct a b) ^ 2
          ≤ (Real.sqrt (sumSq a) * Real.sqrt (sumSq b)) ^ 2 := by
        rw [mul_pow, Real.sq_sqrt (sumSq_nonneg a),
          Real.sq_sqrt (sumSq_nonneg b)]
        exact cauchy_schwarz_list a b
      rw [le_div_iff₀ hP]
      nlinarith [sq_nonneg (dotProduct a b +
        Real.sqrt (sumSq a) * Real.sqrt (sumSq b)), hd2, hP]
    · have hd2 : (dotProduct a b) ^ 2
          ≤ (Real.sqrt (sumSq a) * Real.sqrt (sumSq b)) ^ 2 := by
        rw [mul_pow, Real.sq_sqrt (sumSq_nonneg a),
          Real.sq_sqrt (sumSq_nonneg b)]
        exact cauchy_schwarz_list a b
      rw [div_le_one hP]
      nlinarith [sq_nonneg (dotProduct a b -
        Real.sqrt (sumSq a) * Real.sqrt (sumSq b)), hd2, hP]
  · intro e he h
    simp only [scoredList, List.map_cons, List.map_nil]
    rw [he, hnan h]
  · intro y
    cases y <;> simp [jsub, JNum.isNeg, JNum.isPos]

/-- C10 witness: `[1]⬝[1]` has nonzero norms and similarity `1 ∈ [-1,1]`;
`[0]⬝[0]` has zero norms and yields NaN. -/
theorem c10_witness :
    (∃ r : ℝ, cosineSimilarity [1] [1] = JNum.fin r ∧ -1 ≤ r ∧ r ≤ 1) ∧
    cosineSimilarity [0] [0] = JNum.nan := by
  constructor
  · exact (c10_cosine_unguarded [1] [1] rfl).1
      ⟨by norm_num [sumSq], by norm_num [sumSq]⟩
  · exact (c10_cosine_unguarded [0] [0] rfl).2.1
      (Or.inl (by norm_num [sumSq]))
